import Mathlib

/-!
Shallow embedding of the heroku `cli-engine-heroku` core: the authenticated
request engine with two-factor escalation (`src/api_client.ts`) and the login
negotiator / session teardown (`login.ts`).  Machine strings are Lean
`String`s, JS `undefined` is `Option.none`, and JS truthiness on strings is
made explicit via `truthy`.
-/

namespace Heroku

/-- JS truthiness for an optional string: `undefined` and `""` are falsy. -/
def truthy : Option String → Bool
  | none => false
  | some s => s ≠ ""

/-- The `app` object that may appear inside a structured error body. -/
structure AppRef where
  id : Option String := none
  name : Option String := none
  deriving Repr, DecidableEq

/-- A structured JSON error body as produced by the platform API
(`IHerokuAPIErrorOptions` in `api_client.ts`). -/
structure ErrorBody where
  id : Option String := none
  message : Option String := none
  resource : Option String := none
  url : Option String := none
  app : Option AppRef := none
  deriving Repr, DecidableEq

/-- `Array.prototype.join('\n')` on a list of strings. -/
def joinLines : List String → String
  | [] => ""
  | [s] => s
  | s :: rest => s ++ "\n" ++ joinLines (rest)

/-- The `info` lines pushed by the `HerokuAPIError` constructor, in source
order: error id, app name, help url (each only when truthy). -/
def herokuErrorInfo (b : ErrorBody) : List String :=
  (if truthy b.id then ["Error ID: " ++ b.id.getD ""] else [])
    ++ (match b.app with
        | some a => if truthy a.name then ["App: " ++ a.name.getD ""] else []
        | none => [])
    ++ (if truthy b.url then ["See " ++ b.url.getD "" ++ " for more information."] else [])

/-- The message the `HerokuAPIError` constructor passes to `super`: the body
message joined with a blank line and the info lines when any info exists. -/
def herokuErrorMessage (b : ErrorBody) : String :=
  let info := herokuErrorInfo b
  if info.length ≠ 0 then joinLines ([b.message.getD "", ""] ++ info)
  else b.message.getD ""

/-- A constructed `HerokuAPIError`: the composed message plus the structured
body it was built from. -/
structure WrappedError where
  message : String
  body : ErrorBody
  deriving Repr, DecidableEq

/-- What the `HerokuAPIError` constructor can throw instead of returning:
`original` models `if (!options.message) throw httpError` (the argument is
re-thrown); `typeError` models the property access `options.message` when the
argument has no `body` at all (reading a field of `undefined`). -/
inductive ConstructorThrow where
  | original
  | typeError
  deriving Repr, DecidableEq

/-- The `HerokuAPIError` constructor, as a function of the caught error's
optional body.  `new HerokuAPIError(err)` reads `err.body.message`; a missing
body is a TypeError, a falsy message re-throws the original error, otherwise
the wrapped error carries the composed message. -/
def mkHerokuAPIError : Option ErrorBody → Except ConstructorThrow WrappedError
  | none => .error .typeError
  | some b =>
      if truthy b.message then .ok ⟨herokuErrorMessage b, b⟩
      else .error .original

/-- Every member of a list is a substring of its newline join. -/
theorem joinLines_decomp {s : String} : ∀ {l : List String}, s ∈ l →
    ∃ u v, joinLines l = u ++ s ++ v := by
  intro l
  induction l with
  | nil => intro h; cases h
  | cons a rest ih =>
      intro h
      cases h with
      | head =>
          cases rest with
          | nil => exact ⟨"", "", by simp [joinLines]⟩
          | cons b rs =>
              refine ⟨"", "\n" ++ joinLines (b :: rs), ?_⟩
              simp [joinLines, String.append_assoc]
      | tail _ hmem =>
          obtain ⟨u, v, hu⟩ := ih hmem
          cases rest with
          | nil => cases hmem
          | cons b rs =>
              refine ⟨a ++ "\n" ++ u, v, ?_⟩
              simp [joinLines, hu, String.append_assoc]

/-- A structured transport error (`HTTPError` from http-call): response status
code plus the parsed error body (`err.http.statusCode` / `err.body`). -/
structure HTTPErr where
  statusCode : Int
  body : ErrorBody
  deriving Repr, DecidableEq

/-- Outcome of one underlying transport attempt (`super.request`): success
with a parsed body, a non-`HTTPError` throw (passed through), or a structured
`HTTPError`. -/
inductive TransportOutcome where
  | ok (resp : String)
  | raw (tag : String)
  | http (e : HTTPErr)
  deriving Repr, DecidableEq

/-- External collaborators of the engine, indexed so that each transport
attempt and each prompt gets its own outcome: `transport n` is the result of
the n-th underlying attempt; `promptResult n` the two-factor prompt on the
direct (no-preauth) path; `preauthResult app` the combined
`twoFactorPrompt().then(factor => preauth(app, factor))` promise outcome. -/
structure Oracles where
  transport : Nat → TransportOutcome
  promptResult : Nat → Except String String
  preauthResult : String → Except String Unit

deriving instance DecidableEq for Except

/-- The per-client mutable state the engine touches: the
`preauthPromises` table, keyed by app name, holding the (settled) outcome of
the single preauthorization run for that app. -/
structure EngineState where
  preauthPromises : List (String × Except String Unit)
  deriving Repr, DecidableEq

/-- The request options the escalation path mutates: the
`Heroku-Two-Factor-Code` header slot. -/
structure ReqOpts where
  twoFactorCode : Option String := none
  deriving Repr, DecidableEq

/-- Terminal outcome of `APIHTTPClient.request`: a response, a passed-through
non-HTTP throw, a re-thrown raw `HTTPError` (message-less body), a raised
`HerokuAPIError`, or a propagated prompt/preauth rejection. -/
inductive EngineOutcome where
  | ok (resp : String)
  | rawThrow (tag : String)
  | httpThrow (e : HTTPErr)
  | apiError (w : WrappedError)
  | stepUpThrow (tag : String)
  deriving Repr, DecidableEq

/-- Result of a `request` call: the outcome, the trace of `retries` values
the engine entered each transport attempt with (head = first attempt), and
the final client state. -/
structure ReqResult where
  outcome : EngineOutcome
  trace : List Int
  state : EngineState
  deriving Repr, DecidableEq

mutual

/-- `APIHTTPClient.twoFactorRetry`: on a step-up-required error, either prompt
directly (no owning app, or preauth disabled) and retry with the code header
set, or run the per-app single-flight preauthorization (creating the
`preauthPromises[app]` entry only if absent), then retry with the same
(already decremented) retries budget. -/
def twoFactorRetry (o : Oracles) (preauth : Bool) (st : EngineState)
    (e : HTTPErr) (attempt : Nat) (opts : ReqOpts) (retries : Int) : ReqResult :=
  let app : Option String :=
    match e.body.app with
    | some a => a.name
    | none => none
  if truthy app ∧ preauth then
    match List.lookup (app.getD "") st.preauthPromises with
    | some (.error t) => ⟨.stepUpThrow t, [], st⟩
    | some (.ok _) => request o preauth st (attempt + 1) opts retries
    | none =>
        match o.preauthResult (app.getD "") with
        | .error t =>
            ⟨.stepUpThrow t, [], ⟨(app.getD "", .error t) :: st.preauthPromises⟩⟩
        | .ok u =>
            request o preauth ⟨(app.getD "", .ok u) :: st.preauthPromises⟩
              (attempt + 1) opts retries
  else
    match o.promptResult attempt with
    | .error t => ⟨.stepUpThrow t, [], st⟩
    | .ok code =>
        request o preauth st (attempt + 1) { opts with twoFactorCode := some code } retries
termination_by (retries.toNat, 1)

/-- `APIHTTPClient.request`: decrement retries, attempt the transport; pass
non-HTTP throws through; with budget left, recover a 403 `two_factor` error
via `twoFactorRetry`; otherwise raise `new HerokuAPIError(err)` (which
re-throws the raw error when the body has no message). -/
def request (o : Oracles) (preauth : Bool) (st : EngineState)
    (attempt : Nat) (opts : ReqOpts) (retries : Int) : ReqResult :=
  let r := retries - 1
  match o.transport attempt with
  | .ok resp => ⟨.ok resp, [retries], st⟩
  | .raw t => ⟨.rawThrow t, [retries], st⟩
  | .http e =>
      if h : r > 0 ∧ e.statusCode = 403 ∧ e.body.id = some "two_factor" then
        let res := twoFactorRetry o preauth st e attempt opts r
        ⟨res.outcome, retries :: res.trace, res.state⟩
      else
        match mkHerokuAPIError (some e.body) with
        | .ok w => ⟨.apiError w, [retries], st⟩
        | .error _ => ⟨.httpThrow e, [retries], st⟩
termination_by (retries.toNat, 0)

end

/-! ### Unfolding lemmas for the engine -/

theorem request_ok_eq {o : Oracles} {pe : Bool} {st : EngineState} {attempt : Nat}
    {opts : ReqOpts} {retries : Int} {resp : String}
    (h : o.transport attempt = .ok resp) :
    request o pe st attempt opts retries = ⟨.ok resp, [retries], st⟩ := by
  rw [request, h]

theorem request_raw_eq {o : Oracles} {pe : Bool} {st : EngineState} {attempt : Nat}
    {opts : ReqOpts} {retries : Int} {t : String}
    (h : o.transport attempt = .raw t) :
    request o pe st attempt opts retries = ⟨.rawThrow t, [retries], st⟩ := by
  rw [request, h]

theorem request_recover_eq {o : Oracles} {pe : Bool} {st : EngineState} {attempt : Nat}
    {opts : ReqOpts} {retries : Int} {e : HTTPErr}
    (h : o.transport attempt = .http e)
    (hc : retries - 1 > 0 ∧ e.statusCode = 403 ∧ e.body.id = some "two_factor") :
    request o pe st attempt opts retries =
      ⟨(twoFactorRetry o pe st e attempt opts (retries - 1)).outcome,
       retries :: (twoFactorRetry o pe st e attempt opts (retries - 1)).trace,
       (twoFactorRetry o pe st e attempt opts (retries - 1)).state⟩ := by
  rw [request, h]
  simp only [dif_pos hc]

theorem request_fail_eq {o : Oracles} {pe : Bool} {st : EngineState} {attempt : Nat}
    {opts : ReqOpts} {retries : Int} {e : HTTPErr}
    (h : o.transport attempt = .http e)
    (hc : ¬(retries - 1 > 0 ∧ e.statusCode = 403 ∧ e.body.id = some "two_factor")) :
    request o pe st attempt opts retries =
      match mkHerokuAPIError (some e.body) with
      | .ok w => ⟨.apiError w, [retries], st⟩
      | .error _ => ⟨.httpThrow e, [retries], st⟩ := by
  rw [request, h]
  simp only [dif_neg hc]

/-- Well-formedness of an attempt trace relative to the retries budget it was
entered with: the first attempt records the entering budget, successive
entries strictly decrease, and the attempt count is bounded by the budget
(with at least the one unavoidable first attempt). -/
def traceOK (tr : List Int) (retries : Int) : Prop :=
  tr.head? = some retries ∧ tr.Chain' (fun a b => b < a) ∧ tr.length ≤ max retries.toNat 1

theorem trace_spec_aux : ∀ (k : Nat) (retries : Int), retries.toNat = k →
    ∀ (o : Oracles) (pe : Bool) (st : EngineState) (attempt : Nat) (opts : ReqOpts),
      traceOK (request o pe st attempt opts retries).trace retries
      ∧ (∀ e : HTTPErr,
          (twoFactorRetry o pe st e attempt opts retries).trace = []
          ∨ traceOK (twoFactorRetry o pe st e attempt opts retries).trace retries) := by
  intro k
  induction k using Nat.strong_induction_on with
  | _ k ih =>
    intro retries hk o pe st attempt opts
    have hreq : ∀ (o : Oracles) (pe : Bool) (st : EngineState) (attempt : Nat)
        (opts : ReqOpts), traceOK (request o pe st attempt opts retries).trace retries := by
      intro o pe st attempt opts
      rcases ht : o.transport attempt with resp | t | e
      · rw [request_ok_eq ht]
        refine ⟨rfl, by simp, by simp⟩
      · rw [request_raw_eq ht]
        refine ⟨rfl, by simp, by simp⟩
      · by_cases hc : retries - 1 > 0 ∧ e.statusCode = 403 ∧ e.body.id = some "two_factor"
        · rw [request_recover_eq ht hc]
          have hlt : (retries - 1).toNat < k := by omega
          have htf := (ih (retries - 1).toNat hlt (retries - 1) rfl o pe st (attempt) opts).2
          rcases htf e with hnil | hok
          · refine ⟨rfl, ?_, ?_⟩
            · simp [hnil]
            · simp [hnil]
          · obtain ⟨hhead, hchain, hlen⟩ := hok
            refine ⟨rfl, ?_, ?_⟩
            · rw [List.chain'_cons']
              refine ⟨?_, hchain⟩
              intro y hy
              rw [hhead] at hy
              simp at hy
              omega
            · simp only [List.length_cons]
              omega
        · rw [request_fail_eq ht hc]
          rcases hm : mkHerokuAPIError (some e.body) with err | w
          · simp only [hm]
            exact ⟨rfl, by simp, by simp⟩
          · simp only [hm]
            exact ⟨rfl, by simp, by simp⟩
    refine ⟨hreq o pe st attempt opts, ?_⟩
    intro e
    rw [twoFactorRetry]
    split
    · split
      · simp
      · exact Or.inr (hreq _ _ _ _ _)
      · split
        · simp
        · exact Or.inr (hreq _ _ _ _ _)
    · split
      · simp
      · exact Or.inr (hreq _ _ _ _ _)

/-- Every `request` call produces a well-formed attempt trace. -/
theorem request_traceOK (o : Oracles) (pe : Bool) (st : EngineState) (attempt : Nat)
    (opts : ReqOpts) (retries : Int) :
    traceOK (request o pe st attempt opts retries).trace retries :=
  (trace_spec_aux retries.toNat retries rfl o pe st attempt opts).1

/-! ### Message-composition lemmas for `HerokuAPIError` -/

theorem herokuErrorInfo_id_mem {b : ErrorBody} (h : truthy b.id = true) :
    ("Error ID: " ++ b.id.getD "") ∈ herokuErrorInfo b := by
  simp [herokuErrorInfo, h]

theorem herokuErrorInfo_app_mem {b : ErrorBody} {a : AppRef} (ha : b.app = some a)
    (hn : truthy a.name = true) : ("App: " ++ a.name.getD "") ∈ herokuErrorInfo b := by
  simp [herokuErrorInfo, ha, hn]

theorem herokuErrorInfo_url_mem {b : ErrorBody} (h : truthy b.url = true) :
    ("See " ++ b.url.getD "" ++ " for more information.") ∈ herokuErrorInfo b := by
  simp [herokuErrorInfo, h]

/-- Any info line pushed by the constructor occurs inside the composed
message. -/
theorem herokuErrorMessage_contains {b : ErrorBody} {s : String}
    (hs : s ∈ herokuErrorInfo b) : ∃ u v, herokuErrorMessage b = u ++ s ++ v := by
  have hne : herokuErrorInfo b ≠ [] := by
    intro h
    rw [h] at hs
    cases hs
  have hlen : (herokuErrorInfo b).length ≠ 0 := by
    intro h0
    exact hne (List.length_eq_zero.mp h0)
  unfold herokuErrorMessage
  rw [if_pos hlen]
  exact joinLines_decomp (by simp [hs])

/-- The server-supplied message occurs inside the composed message. -/
theorem herokuErrorMessage_contains_message (b : ErrorBody) :
    ∃ u v, herokuErrorMessage b = u ++ b.message.getD "" ++ v := by
  unfold herokuErrorMessage
  by_cases h : (herokuErrorInfo b).length ≠ 0
  · rw [if_pos h]
    exact joinLines_decomp (by simp)
  · rw [if_neg h]
    exact ⟨"", "", by simp⟩

/-! ### Demonstration inputs -/

/-- A step-up-required structured error body. -/
def tfBody : ErrorBody :=
  { id := some "two_factor", message := some "need 2fa", app := some { name := some "myapp" } }

/-- A step-up-required transport error (403 + `two_factor`). -/
def tfErr : HTTPErr := ⟨403, tfBody⟩

/-- Oracles whose transport always raises the step-up error and whose prompt
and preauthorization always succeed. -/
def demoOracles : Oracles :=
  { transport := fun _ => .http tfErr
    promptResult := fun _ => .ok "123456"
    preauthResult := fun _ => .ok () }

/-- A non-step-up structured error body with a message, id and url. -/
def plainBody : ErrorBody :=
  { id := some "oops", message := some "boom", url := some "https://devcenter" }

/-- A plain 500 structured error. -/
def plainErr : HTTPErr := ⟨500, plainBody⟩

/-- Oracles whose transport always raises the plain 500 error. -/
def plainOracles : Oracles :=
  { transport := fun _ => .http plainErr
    promptResult := fun _ => .ok "123456"
    preauthResult := fun _ => .ok () }

/-! ### Claim C2 -/

/-- C2: the retries counter strictly decreases across the attempts of any
`request` call; with the default budget of 3 the engine performs at most 3
transport attempts in total including the first; and a request that receives
a step-up-required error with no retry budget left (`retries = 0` at the
check, i.e. an entering budget of at most 1) raises the wrapped
`HerokuAPIError` and performs no further transport attempt. -/
theorem c2_retry_budget :
    (∀ (o : Oracles) (pe : Bool) (st : EngineState) (attempt : Nat) (opts : ReqOpts),
        (request o pe st attempt opts 3).trace.Chain' (fun a b => b < a)
        ∧ (request o pe st attempt opts 3).trace.length ≤ 3
        ∧ (request o pe st attempt opts 3).trace.head? = some 3)
    ∧ (∀ (o : Oracles) (pe : Bool) (st : EngineState) (attempt : Nat) (opts : ReqOpts)
        (retries : Int) (e : HTTPErr), retries ≤ 1 →
        o.transport attempt = .http e → e.statusCode = 403 →
        e.body.id = some "two_factor" → truthy e.body.message = true →
        (request o pe st attempt opts retries).outcome
            = .apiError ⟨herokuErrorMessage e.body, e.body⟩
        ∧ (request o pe st attempt opts retries).trace.length = 1) := by
  constructor
  · intro o pe st attempt opts
    obtain ⟨hhead, hchain, hlen⟩ := request_traceOK o pe st attempt opts 3
    exact ⟨hchain, by simpa using hlen, hhead⟩
  · intro o pe st attempt opts retries e hr ht h403 hid hm
    have hc : ¬(retries - 1 > 0 ∧ e.statusCode = 403 ∧ e.body.id = some "two_factor") := by
      rintro ⟨h1, -, -⟩
      omega
    rw [request_fail_eq ht hc]
    simp [mkHerokuAPIError, hm]

/-- Witness for C2 at concrete inputs. -/
theorem c2_retry_budget_witness :
    (request demoOracles true ⟨[]⟩ 0 {} 3).trace.Chain' (fun a b => b < a)
    ∧ (request demoOracles true ⟨[]⟩ 0 {} 0).outcome
        = .apiError ⟨herokuErrorMessage tfBody, tfBody⟩ :=
  ⟨(c2_retry_budget.1 demoOracles true ⟨[]⟩ 0 {}).1,
   (c2_retry_budget.2 demoOracles true ⟨[]⟩ 0 {} 0 tfErr (by decide) rfl rfl rfl
      (by decide)).1⟩

/-! ### Claim C3 -/

/-- C3: a structured transport error that is not a recoverable step-up case
is translated into exactly one wrapped `HerokuAPIError` whose message
contains the server-supplied message, augmented with the error id, app name
and help url whenever each is present; a structured error without a message
is re-raised unchanged instead of being wrapped. -/
theorem c3_error_translation :
    ∀ (o : Oracles) (pe : Bool) (st : EngineState) (attempt : Nat) (opts : ReqOpts)
      (retries : Int) (e : HTTPErr),
      o.transport attempt = .http e →
      ¬(retries - 1 > 0 ∧ e.statusCode = 403 ∧ e.body.id = some "two_factor") →
      (truthy e.body.message = true →
        ∃ w, (request o pe st attempt opts retries).outcome = .apiError w
          ∧ (request o pe st attempt opts retries).trace.length = 1
          ∧ (∃ u v, w.message = u ++ e.body.message.getD "" ++ v)
          ∧ (truthy e.body.id = true →
              ∃ u v, w.message = u ++ ("Error ID: " ++ e.body.id.getD "") ++ v)
          ∧ (∀ a, e.body.app = some a → truthy a.name = true →
              ∃ u v, w.message = u ++ ("App: " ++ a.name.getD "") ++ v)
          ∧ (truthy e.body.url = true →
              ∃ u v, w.message
                = u ++ ("See " ++ e.body.url.getD "" ++ " for more information.") ++ v))
      ∧ (truthy e.body.message = false →
          (request o pe st attempt opts retries).outcome = .httpThrow e
          ∧ (request o pe st attempt opts retries).trace.length = 1) := by
  intro o pe st attempt opts retries e ht hc
  rw [request_fail_eq ht hc]
  constructor
  · intro hm
    refine ⟨⟨herokuErrorMessage e.body, e.body⟩, ?_, ?_, ?_, ?_, ?_, ?_⟩
    · simp [mkHerokuAPIError, hm]
    · simp [mkHerokuAPIError, hm]
    · exact herokuErrorMessage_contains_message e.body
    · intro hid
      exact herokuErrorMessage_contains (herokuErrorInfo_id_mem hid)
    · intro a ha hn
      exact herokuErrorMessage_contains (herokuErrorInfo_app_mem ha hn)
    · intro hu
      exact herokuErrorMessage_contains (herokuErrorInfo_url_mem hu)
  · intro hm
    simp [mkHerokuAPIError, hm]

/-- Witness for C3 at a concrete plain 500 error. -/
theorem c3_error_translation_witness :
    ∃ w, (request plainOracles true ⟨[]⟩ 0 {} 3).outcome = .apiError w
      ∧ (request plainOracles true ⟨[]⟩ 0 {} 3).trace.length = 1
      ∧ (∃ u v, w.message = u ++ plainErr.body.message.getD "" ++ v)
      ∧ (truthy plainErr.body.id = true →
          ∃ u v, w.message = u ++ ("Error ID: " ++ plainErr.body.id.getD "") ++ v)
      ∧ (∀ a, plainErr.body.app = some a → truthy a.name = true →
          ∃ u v, w.message = u ++ ("App: " ++ a.name.getD "") ++ v)
      ∧ (truthy plainErr.body.url = true →
          ∃ u v, w.message
            = u ++ ("See " ++ plainErr.body.url.getD "" ++ " for more information.") ++ v) :=
  (c3_error_translation plainOracles true ⟨[]⟩ 0 {} 3 plainErr rfl (by decide)).1 (by decide)

/-! ### Credential resolution (`APIClient.auth` getter) -/

/-- The process environment variables the client consults. -/
structure Env where
  herokuApiKey : Option String := none
  herokuApiToken : Option String := none
  herokuHeaders : Option String := none
  deriving Repr, DecidableEq

/-- One machine entry of the netrc credential store. -/
structure NetrcMachine where
  login : Option String := none
  password : Option String := none
  method : Option String := none
  org : Option String := none
  deriving Repr, DecidableEq

/-- The netrc credential store: host-keyed machine entries. -/
structure Netrc where
  machines : List (String × NetrcMachine)
  deriving Repr, DecidableEq

/-- Result of one evaluation of the `auth` getter: the returned value, the
new `_auth` field, whether the deprecated-variable warning fired, and how
many times `netrc.loadSync()` ran during the call. -/
structure AuthResult where
  value : Option String
  cached : Option String
  warned : Bool
  netrcLoads : Nat
  deriving Repr, DecidableEq

/-- The `APIClient.auth` getter: if `_auth` is falsy, warn when
`HEROKU_API_TOKEN` is set without `HEROKU_API_KEY`, take `HEROKU_API_KEY`,
and if that is falsy load the netrc store and take the configured API host's
password.  Only the computed value is stored back into `_auth`. -/
def auth (auth0 : Option String) (env : Env) (netrc : Netrc) (apiHost : String) :
    AuthResult :=
  if truthy auth0 then ⟨auth0, auth0, false, 0⟩
  else
    let warned := truthy env.herokuApiToken && !truthy env.herokuApiKey
    let a1 := env.herokuApiKey
    if truthy a1 then ⟨a1, a1, warned, 0⟩
    else
      let a2 := (List.lookup apiHost netrc.machines).bind (fun m => m.password)
      ⟨a2, a2, warned, 1⟩

/-- C4, as stated, is false: when resolution finds no credential, nothing is
cached (`_auth` stays falsy), so the next call re-reads the environment and
re-loads the store — and can even return a different value if the
environment changed meanwhile. -/
theorem c4_auth_counterexample :
    (auth none {} ⟨[]⟩ "api.heroku.com").value = none
    ∧ (auth none {} ⟨[]⟩ "api.heroku.com").netrcLoads = 1
    ∧ (auth (auth none {} ⟨[]⟩ "api.heroku.com").cached {} ⟨[]⟩ "api.heroku.com").netrcLoads = 1
    ∧ (auth (auth none {} ⟨[]⟩ "api.heroku.com").cached
        { herokuApiKey := some "newkey" } ⟨[]⟩ "api.heroku.com").value = some "newkey" := by
  decide

/-- A truthy `_auth` field short-circuits the whole getter. -/
theorem auth_cached_hit {v : Option String} (h : truthy v = true) (env : Env) (n : Netrc)
    (host : String) : auth v env n host = ⟨v, v, false, 0⟩ := by
  simp [auth, h]

/-- C4 (amended): precedence is in-memory override, then `HEROKU_API_KEY`
(with the deprecation warning fired exactly when `HEROKU_API_TOKEN` is set
without it), then the stored password for the API host; a *found* credential
is cached so that any later call returns it with no environment or store
read; absence is returned as a plain value (the resolver never throws), but
absence is not cached. -/
theorem c4_auth_resolution :
    (∀ (auth0 : Option String) (env : Env) (n : Netrc) (host : String),
        truthy auth0 = true → auth auth0 env n host = ⟨auth0, auth0, false, 0⟩)
    ∧ (∀ (auth0 : Option String) (env : Env) (n : Netrc) (host : String),
        truthy auth0 = false → truthy env.herokuApiKey = true →
        auth auth0 env n host = ⟨env.herokuApiKey, env.herokuApiKey, false, 0⟩)
    ∧ (∀ (auth0 : Option String) (env : Env) (n : Netrc) (host : String),
        truthy auth0 = false → truthy env.herokuApiKey = false →
        auth auth0 env n host
          = ⟨(List.lookup host n.machines).bind (fun m => m.password),
             (List.lookup host n.machines).bind (fun m => m.password),
             truthy env.herokuApiToken, 1⟩)
    ∧ (∀ (auth0 : Option String) (env : Env) (n : Netrc) (host : String),
        truthy (auth auth0 env n host).value = true →
        ∀ (env2 : Env) (n2 : Netrc),
          auth (auth auth0 env n host).cached env2 n2 host
            = ⟨(auth auth0 env n host).value, (auth auth0 env n host).value, false, 0⟩) := by
  refine ⟨?_, ?_, ?_, ?_⟩
  · intro auth0 env n host h
    simp [auth, h]
  · intro auth0 env n host h0 hk
    simp [auth, h0, hk]
  · intro auth0 env n host h0 hk
    simp [auth, h0, hk]
  · intro auth0 env n host hv env2 n2
    have hcv : (auth auth0 env n host).cached = (auth auth0 env n host).value := by
      unfold auth
      by_cases h0 : truthy auth0 = true
      · simp [h0]
      · by_cases hk : truthy env.herokuApiKey = true
        · simp [h0, hk]
        · simp [h0, hk]
    rw [hcv]
    exact auth_cached_hit hv env2 n2 host

/-- Witness for C4 (amended) at concrete inputs. -/
theorem c4_auth_resolution_witness :
    auth (some "mypass") {} ⟨[]⟩ "api.heroku.com"
        = ⟨some "mypass", some "mypass", false, 0⟩
    ∧ auth none { herokuApiKey := some "envkey", herokuApiToken := some "tok" } ⟨[]⟩ "h"
        = ⟨some "envkey", some "envkey", false, 0⟩
    ∧ auth none { herokuApiToken := some "tok" }
        ⟨[("h", { password := some "pw" })]⟩ "h"
        = ⟨(List.lookup "h" [("h", ({ password := some "pw" } : NetrcMachine))]).bind
             (fun m => m.password),
           (List.lookup "h" [("h", ({ password := some "pw" } : NetrcMachine))]).bind
             (fun m => m.password),
           truthy (some "tok"), 1⟩
    ∧ auth (auth none {} ⟨[("h", { password := some "pw" })]⟩ "h").cached {} ⟨[]⟩ "h"
        = ⟨(auth none {} ⟨[("h", { password := some "pw" })]⟩ "h").value,
           (auth none {} ⟨[("h", { password := some "pw" })]⟩ "h").value, false, 0⟩ :=
  ⟨c4_auth_resolution.1 (some "mypass") {} ⟨[]⟩ "api.heroku.com" (by decide),
   c4_auth_resolution.2.1 none { herokuApiKey := some "envkey", herokuApiToken := some "tok" }
     ⟨[]⟩ "h" (by decide) (by decide),
   c4_auth_resolution.2.2.1 none { herokuApiToken := some "tok" }
     ⟨[("h", { password := some "pw" })]⟩ "h" (by decide) (by decide),
   c4_auth_resolution.2.2.2 none {} ⟨[("h", { password := some "pw" })]⟩ "h" (by decide)
     {} ⟨[]⟩⟩

/-! ### Concurrent single-flight gate (`preauthPromises` under parallel
requests)

The check `if (!self.preauthPromises[app])` together with the assignment
`self.preauthPromises[app] = ...` contains no `await`, so under node's
cooperative scheduling it is one atomic step; the `await` of the stored
promise and the promise's own settlement are separate steps that may
interleave freely across tasks. -/

theorem lookup_cons_self {β : Type} {k : String} {v : β} {l : List (String × β)} :
    List.lookup k ((k, v) :: l) = some v := by
  simp [List.lookup]

theorem lookup_cons_of_ne {β : Type} {a k : String} {v : β} {l : List (String × β)}
    (h : a ≠ k) : List.lookup a ((k, v) :: l) = List.lookup a l := by
  simp [List.lookup, beq_eq_false_iff_ne.mpr h]

theorem lookup_nat_cons_of_ne {β : Type} {a k : Nat} {v : β} {l : List (Nat × β)}
    (h : a ≠ k) : List.lookup a ((k, v) :: l) = List.lookup a l := by
  simp [List.lookup, beq_eq_false_iff_ne.mpr h]

theorem lookup_ne_of_lookup_none {β : Type} {a k : String} {v : β} {l : List (String × β)}
    (hsome : List.lookup a l = some v) (hnone : List.lookup k l = none) : a ≠ k := by
  intro h
  rw [h, hnone] at hsome
  cases hsome

theorem lookup_nat_ne_of_lookup_none {β : Type} {a k : Nat} {v : β} {l : List (Nat × β)}
    (hsome : List.lookup a l = some v) (hnone : List.lookup k l = none) : a ≠ k := by
  intro h
  rw [h, hnone] at hsome
  cases hsome

theorem lookup_none_not_mem_keys {β : Type} {k : String} {l : List (String × β)}
    (h : List.lookup k l = none) : k ∉ l.map Prod.fst := by
  induction l with
  | nil => simp
  | cons p rest ih =>
      by_cases hk : k = p.1
      · rw [hk] at h
        rw [show p = (p.1, p.2) from rfl, lookup_cons_self] at h
        cases h
      · rw [show p = (p.1, p.2) from rfl, lookup_cons_of_ne hk] at h
        simp [hk, ih h]

theorem lookup_some_mem_keys {β : Type} {k : String} {v : β} {l : List (String × β)}
    (h : List.lookup k l = some v) : k ∈ l.map Prod.fst := by
  induction l with
  | nil => cases h
  | cons p rest ih =>
      by_cases hk : k = p.1
      · simp [hk]
      · rw [show p = (p.1, p.2) from rfl, lookup_cons_of_ne hk] at h
        simp [hk, ih h]

/-- Where a task is inside the gated step-up path of `twoFactorRetry`. -/
inductive Phase where
  | entry
  | waiting (pid : Nat)
  | retrying
  | failed (tag : String)
  deriving Repr, DecidableEq

/-- One in-flight request that received a step-up-required error for `key`. -/
structure GTask where
  key : String
  phase : Phase
  deriving Repr, DecidableEq

/-- Global state of the gate: the `preauthPromises` table (app name to
promise id), the settled promises, the fresh-promise counter, the log of
started prompt-and-preauthorize operations, and the in-flight tasks. -/
structure GateSys where
  table : List (String × Nat)
  resolved : List (Nat × Except String Unit)
  nextPid : Nat
  invocations : List (String × Nat)
  tasks : List GTask
  deriving Repr, DecidableEq

/-- Phase a waiter moves to when its awaited promise settles: fulfilment
lets it retry the original request, rejection propagates. -/
def wakePhase : Except String Unit → Phase
  | .ok _ => .retrying
  | .error t => .failed t

/-- Cooperative small-step semantics of the gated path. -/
inductive GStep : GateSys → GateSys → Prop where
  | enterHit (s : GateSys) (l1 l2 : List GTask) (k : String) (pid : Nat) :
      s.tasks = l1 ++ ⟨k, .entry⟩ :: l2 →
      List.lookup k s.table = some pid →
      GStep s { s with tasks := l1 ++ ⟨k, .waiting pid⟩ :: l2 }
  | enterMiss (s : GateSys) (l1 l2 : List GTask) (k : String) :
      s.tasks = l1 ++ ⟨k, .entry⟩ :: l2 →
      List.lookup k s.table = none →
      GStep s { table := (k, s.nextPid) :: s.table
                resolved := s.resolved
                nextPid := s.nextPid + 1
                invocations := (k, s.nextPid) :: s.invocations
                tasks := l1 ++ ⟨k, .waiting s.nextPid⟩ :: l2 }
  | settle (s : GateSys) (pid : Nat) (o : Except String Unit) (k : String) :
      List.lookup pid s.resolved = none →
      (k, pid) ∈ s.table →
      GStep s { s with resolved := (pid, o) :: s.resolved }
  | wake (s : GateSys) (l1 l2 : List GTask) (k : String) (pid : Nat)
      (o : Except String Unit) :
      s.tasks = l1 ++ ⟨k, .waiting pid⟩ :: l2 →
      List.lookup pid s.resolved = some o →
      GStep s { s with tasks := l1 ++ ⟨k, wakePhase o⟩ :: l2 }

/-- Initial state: empty `preauthPromises`, one freshly-rejected task per
listed key. -/
def initSys (keys : List String) : GateSys :=
  ⟨[], [], 0, [], keys.map (fun k => ⟨k, .entry⟩)⟩

/-- States the gate can reach from `initSys keys` by any interleaving. -/
def Reachable (keys : List String) (s : GateSys) : Prop :=
  Relation.ReflTransGen GStep (initSys keys) s

/-- Inductive invariant of the gate. -/
structure GInv (keys : List String) (s : GateSys) : Prop where
  tasks_keys : s.tasks.map GTask.key = keys
  inv_log : s.invocations = s.table
  table_keys_nodup : (s.table.map Prod.fst).Nodup
  table_keys_sub : ∀ p ∈ s.table, p.1 ∈ keys
  waiting_bound : ∀ t ∈ s.tasks, ∀ pid, t.phase = .waiting pid →
      List.lookup t.key s.table = some pid
  done_ok : ∀ t ∈ s.tasks, t.phase = .retrying →
      ∃ pid, List.lookup t.key s.table = some pid
        ∧ List.lookup pid s.resolved = some (.ok ())
  done_err : ∀ t ∈ s.tasks, ∀ tag, t.phase = .failed tag →
      ∃ pid, List.lookup t.key s.table = some pid
        ∧ List.lookup pid s.resolved = some (.error tag)

theorem ginv_init (keys : List String) : GInv keys (initSys keys) := by
  refine ⟨?_, rfl, ?_, ?_, ?_, ?_, ?_⟩
  · simp [initSys, Function.comp_def]
  · simp [initSys]
  · simp [initSys]
  · intro t ht pid hp
    simp [initSys] at ht
    obtain ⟨k, -, rfl⟩ := ht
    cases hp
  · intro t ht hp
    simp [initSys] at ht
    obtain ⟨k, -, rfl⟩ := ht
    cases hp
  · intro t ht tag hp
    simp [initSys] at ht
    obtain ⟨k, -, rfl⟩ := ht
    cases hp

theorem mem_of_parts {t x : GTask} {l1 l2 tasks : List GTask}
    (h : tasks = l1 ++ x :: l2) (ht : t ∈ l1 ∨ t ∈ l2) : t ∈ tasks := by
  rw [h]
  rcases ht with h1 | h2
  · exact List.mem_append_left _ h1
  · exact List.mem_append_right _ (List.mem_cons_of_mem _ h2)

theorem self_mem_of_parts {x : GTask} {l1 l2 tasks : List GTask}
    (h : tasks = l1 ++ x :: l2) : x ∈ tasks := by
  rw [h]
  exact List.mem_append_right _ (List.mem_cons_self _ _)

/-- The gate invariant is preserved by every step. -/
theorem ginv_step {keys : List String} {s s2 : GateSys} (inv : GInv keys s)
    (hstep : GStep s s2) : GInv keys s2 := by
  cases hstep with
  | enterHit l1 l2 k pid htasks hlk =>
      refine ⟨?_, inv.inv_log, inv.table_keys_nodup, inv.table_keys_sub, ?_, ?_, ?_⟩
      · have hk := inv.tasks_keys
        rw [htasks] at hk
        simpa using hk
      · intro t ht pid2 hp
        simp only [List.mem_append, List.mem_cons] at ht
        rcases ht with h1 | h2 | h3
        · exact inv.waiting_bound t (mem_of_parts htasks (Or.inl h1)) pid2 hp
        · subst h2
          simp only at hp
          cases hp
          exact hlk
        · exact inv.waiting_bound t (mem_of_parts htasks (Or.inr h3)) pid2 hp
      · intro t ht hp
        simp only [List.mem_append, List.mem_cons] at ht
        rcases ht with h1 | h2 | h3
        · exact inv.done_ok t (mem_of_parts htasks (Or.inl h1)) hp
        · subst h2
          cases hp
        · exact inv.done_ok t (mem_of_parts htasks (Or.inr h3)) hp
      · intro t ht tag hp
        simp only [List.mem_append, List.mem_cons] at ht
        rcases ht with h1 | h2 | h3
        · exact inv.done_err t (mem_of_parts htasks (Or.inl h1)) tag hp
        · subst h2
          cases hp
        · exact inv.done_err t (mem_of_parts htasks (Or.inr h3)) tag hp
  | enterMiss l1 l2 k htasks hlk =>
      have hkmem : k ∈ keys := by
        have hk := inv.tasks_keys
        rw [← hk]
        have : (⟨k, .entry⟩ : GTask) ∈ s.tasks := self_mem_of_parts htasks
        exact List.mem_map_of_mem GTask.key this
      refine ⟨?_, ?_, ?_, ?_, ?_, ?_, ?_⟩
      · have hk := inv.tasks_keys
        rw [htasks] at hk
        simpa using hk
      · simp only [inv.inv_log]
      · simp only [List.map_cons]
        exact List.nodup_cons.mpr ⟨lookup_none_not_mem_keys hlk, inv.table_keys_nodup⟩
      · intro p hp
        rcases List.mem_cons.mp hp with h1 | h2
        · subst h1
          exact hkmem
        · exact inv.table_keys_sub p h2
      · intro t ht pid2 hp
        simp only [List.mem_append, List.mem_cons] at ht
        rcases ht with h1 | h2 | h3
        · have hold := inv.waiting_bound t (mem_of_parts htasks (Or.inl h1)) pid2 hp
          have hne := lookup_ne_of_lookup_none hold hlk
          simpa only [lookup_cons_of_ne hne] using hold
        · subst h2
          simp only at hp
          cases hp
          exact lookup_cons_self
        · have hold := inv.waiting_bound t (mem_of_parts htasks (Or.inr h3)) pid2 hp
          have hne := lookup_ne_of_lookup_none hold hlk
          simpa only [lookup_cons_of_ne hne] using hold
      · intro t ht hp
        simp only [List.mem_append, List.mem_cons] at ht
        rcases ht with h1 | h2 | h3
        · obtain ⟨pid2, hl2, hr2⟩ := inv.done_ok t (mem_of_parts htasks (Or.inl h1)) hp
          have hne := lookup_ne_of_lookup_none hl2 hlk
          exact ⟨pid2, by simpa only [lookup_cons_of_ne hne] using hl2, hr2⟩
        · subst h2
          cases hp
        · obtain ⟨pid2, hl2, hr2⟩ := inv.done_ok t (mem_of_parts htasks (Or.inr h3)) hp
          have hne := lookup_ne_of_lookup_none hl2 hlk
          exact ⟨pid2, by simpa only [lookup_cons_of_ne hne] using hl2, hr2⟩
      · intro t ht tag hp
        simp only [List.mem_append, List.mem_cons] at ht
        rcases ht with h1 | h2 | h3
        · obtain ⟨pid2, hl2, hr2⟩ := inv.done_err t (mem_of_parts htasks (Or.inl h1)) tag hp
          have hne := lookup_ne_of_lookup_none hl2 hlk
          exact ⟨pid2, by simpa only [lookup_cons_of_ne hne] using hl2, hr2⟩
        · subst h2
          cases hp
        · obtain ⟨pid2, hl2, hr2⟩ := inv.done_err t (mem_of_parts htasks (Or.inr h3)) tag hp
          have hne := lookup_ne_of_lookup_none hl2 hlk
          exact ⟨pid2, by simpa only [lookup_cons_of_ne hne] using hl2, hr2⟩
  | settle pid o k hnone hmem =>
      refine ⟨inv.tasks_keys, inv.inv_log, inv.table_keys_nodup, inv.table_keys_sub,
        inv.waiting_bound, ?_, ?_⟩
      · intro t ht hp
        obtain ⟨pid2, hl2, hr2⟩ := inv.done_ok t ht hp
        have hne := lookup_nat_ne_of_lookup_none hr2 hnone
        exact ⟨pid2, hl2, by simpa only [lookup_nat_cons_of_ne hne] using hr2⟩
      · intro t ht tag hp
        obtain ⟨pid2, hl2, hr2⟩ := inv.done_err t ht tag hp
        have hne := lookup_nat_ne_of_lookup_none hr2 hnone
        exact ⟨pid2, hl2, by simpa only [lookup_nat_cons_of_ne hne] using hr2⟩
  | wake l1 l2 k pid o htasks hres =>
      have hwb := inv.waiting_bound ⟨k, .waiting pid⟩ (self_mem_of_parts htasks) pid rfl
      refine ⟨?_, inv.inv_log, inv.table_keys_nodup, inv.table_keys_sub, ?_, ?_, ?_⟩
      · have hk := inv.tasks_keys
        rw [htasks] at hk
        simpa using hk
      · intro t ht pid2 hp
        simp only [List.mem_append, List.mem_cons] at ht
        rcases ht with h1 | h2 | h3
        · exact inv.waiting_bound t (mem_of_parts htasks (Or.inl h1)) pid2 hp
        · subst h2
          simp only at hp
          cases o with
          | ok u => cases hp
          | error tag => cases hp
        · exact inv.waiting_bound t (mem_of_parts htasks (Or.inr h3)) pid2 hp
      · intro t ht hp
        simp only [List.mem_append, List.mem_cons] at ht
        rcases ht with h1 | h2 | h3
        · exact inv.done_ok t (mem_of_parts htasks (Or.inl h1)) hp
        · subst h2
          simp only at hp
          cases o with
          | ok u =>
              refine ⟨pid, hwb, ?_⟩
              cases u
              exact hres
          | error tag => cases hp
        · exact inv.done_ok t (mem_of_parts htasks (Or.inr h3)) hp
      · intro t ht tag hp
        simp only [List.mem_append, List.mem_cons] at ht
        rcases ht with h1 | h2 | h3
        · exact inv.done_err t (mem_of_parts htasks (Or.inl h1)) tag hp
        · subst h2
          simp only at hp
          cases o with
          | ok u => cases hp
          | error tag2 =>
              have : tag2 = tag := by
                simpa [wakePhase] using hp
              subst this
              exact ⟨pid, hwb, hres⟩
        · exact inv.done_err t (mem_of_parts htasks (Or.inr h3)) tag hp

/-- Every reachable gate state satisfies the invariant. -/
theorem reachable_ginv {keys : List String} {s : GateSys} (h : Reachable keys s) :
    GInv keys s := by
  induction h with
  | refl => exact ginv_init keys
  | tail hab hbc ih => exact ginv_step ih hbc

theorem length_le_one_of_nodup_const {l : List String} {k : String} (hn : l.Nodup)
    (hall : ∀ x ∈ l, x = k) : l.length ≤ 1 := by
  match l with
  | [] => simp
  | [a] => simp
  | a :: b :: rest =>
      have ha := hall a (by simp)
      have hb := hall b (by simp)
      rw [List.nodup_cons] at hn
      exact absurd (by rw [ha, ← hb]; exact List.mem_cons_self _ _) hn.1

/-- C1: for any number n ≥ 2 of concurrent requests that hit a
step-up-required error for the same resource key, along every interleaving in
which all of them complete, the prompt-and-preauthorize operation was started
exactly once, every caller observed the same outcome, and when that outcome
is success every caller retries its original request. -/
theorem c1_single_flight (n : Nat) (k : String) (s : GateSys) (hn : 2 ≤ n)
    (hreach : Reachable (List.replicate n k) s)
    (hdone : ∀ t ∈ s.tasks, t.phase = Phase.retrying ∨ ∃ tag, t.phase = Phase.failed tag) :
    s.invocations.length = 1
    ∧ (∀ t1 ∈ s.tasks, ∀ t2 ∈ s.tasks, t1.phase = t2.phase)
    ∧ ((∃ t ∈ s.tasks, t.phase = Phase.retrying) →
        ∀ t ∈ s.tasks, t.phase = Phase.retrying) := by
  have inv := reachable_ginv hreach
  have hkeys : ∀ t ∈ s.tasks, t.key = k := by
    intro t ht
    have hmem : t.key ∈ List.replicate n k := by
      rw [← inv.tasks_keys]
      exact List.mem_map_of_mem GTask.key ht
    exact List.eq_of_mem_replicate hmem
  have hlen : s.tasks.length = n := by
    have := congrArg List.length inv.tasks_keys
    simpa using this
  have hne : s.tasks ≠ [] := by
    intro h
    rw [h] at hlen
    simp at hlen
    omega
  obtain ⟨t0, ht0⟩ := List.exists_mem_of_ne_nil s.tasks hne
  have hpid0 : ∃ pid, List.lookup k s.table = some pid := by
    rcases hdone t0 ht0 with hr | ⟨tag, hf⟩
    · obtain ⟨pid, hl, -⟩ := inv.done_ok t0 ht0 hr
      exact ⟨pid, by rwa [hkeys t0 ht0] at hl⟩
    · obtain ⟨pid, hl, -⟩ := inv.done_err t0 ht0 tag hf
      exact ⟨pid, by rwa [hkeys t0 ht0] at hl⟩
  obtain ⟨pid, hpid⟩ := hpid0
  have houtcome : ∀ t ∈ s.tasks,
      (t.phase = Phase.retrying ∧ List.lookup pid s.resolved = some (Except.ok ()))
      ∨ (∃ tag, t.phase = Phase.failed tag
          ∧ List.lookup pid s.resolved = some (Except.error tag)) := by
    intro t ht
    rcases hdone t ht with hr | ⟨tag, hf⟩
    · obtain ⟨pid2, hl, hres⟩ := inv.done_ok t ht hr
      rw [hkeys t ht] at hl
      have hp2 : pid2 = pid := Option.some.inj (hl.symm.trans hpid)
      subst hp2
      exact Or.inl ⟨hr, hres⟩
    · obtain ⟨pid2, hl, hres⟩ := inv.done_err t ht tag hf
      rw [hkeys t ht] at hl
      have hp2 : pid2 = pid := Option.some.inj (hl.symm.trans hpid)
      subst hp2
      exact Or.inr ⟨tag, hf, hres⟩
  refine ⟨?_, ?_, ?_⟩
  · rw [inv.inv_log]
    have hsub : ∀ x ∈ s.table.map Prod.fst, x = k := by
      intro x hx
      obtain ⟨p, hp, hpx⟩ := List.mem_map.mp hx
      rw [← hpx]
      exact List.eq_of_mem_replicate (inv.table_keys_sub p hp)
    have hle := length_le_one_of_nodup_const inv.table_keys_nodup hsub
    have hge : 0 < (s.table.map Prod.fst).length :=
      List.length_pos.mpr (List.ne_nil_of_mem (lookup_some_mem_keys hpid))
    have heq : (s.table.map Prod.fst).length = 1 := by omega
    simpa using heq
  · intro t1 ht1 t2 ht2
    rcases houtcome t1 ht1 with ⟨h1, hres1⟩ | ⟨tag1, h1, hres1⟩ <;>
      rcases houtcome t2 ht2 with ⟨h2, hres2⟩ | ⟨tag2, h2, hres2⟩
    · rw [h1, h2]
    · exact absurd (hres1.symm.trans hres2) (by simp)
    · exact absurd (hres1.symm.trans hres2) (by simp)
    · have htag : tag1 = tag2 := by
        have := hres1.symm.trans hres2
        simpa using this
      rw [h1, h2, htag]
  · intro hx t ht
    obtain ⟨t0w, ht0w, hr0⟩ := hx
    rcases houtcome t ht with ⟨h1, -⟩ | ⟨tag, h1, hres⟩
    · exact h1
    · rcases houtcome t0w ht0w with ⟨-, hres0⟩ | ⟨tag0, h0, -⟩
      · exact absurd (hres.symm.trans hres0) (by simp)
      · exact absurd (hr0.symm.trans h0) (by simp)

/-! ### Demonstration interleaving: two concurrent requests, one key -/

def dS0 : GateSys := initSys (List.replicate 2 "myapp")

def dS1 : GateSys :=
  ⟨[("myapp", 0)], [], 1, [("myapp", 0)],
   [⟨"myapp", .waiting 0⟩, ⟨"myapp", .entry⟩]⟩

def dS2 : GateSys :=
  ⟨[("myapp", 0)], [], 1, [("myapp", 0)],
   [⟨"myapp", .waiting 0⟩, ⟨"myapp", .waiting 0⟩]⟩

def dS3 : GateSys :=
  ⟨[("myapp", 0)], [(0, .ok ())], 1, [("myapp", 0)],
   [⟨"myapp", .waiting 0⟩, ⟨"myapp", .waiting 0⟩]⟩

def dS4 : GateSys :=
  ⟨[("myapp", 0)], [(0, .ok ())], 1, [("myapp", 0)],
   [⟨"myapp", .retrying⟩, ⟨"myapp", .waiting 0⟩]⟩

/-- Final state of the demonstration interleaving: both callers recovered,
the preauthorization settled, and the table entry still present. -/
def demoFinal : GateSys :=
  ⟨[("myapp", 0)], [(0, .ok ())], 1, [("myapp", 0)],
   [⟨"myapp", .retrying⟩, ⟨"myapp", .retrying⟩]⟩

theorem demo_step1 : GStep dS0 dS1 :=
  GStep.enterMiss dS0 [] [⟨"myapp", .entry⟩] "myapp" rfl rfl

theorem demo_step2 : GStep dS1 dS2 :=
  GStep.enterHit dS1 [⟨"myapp", .waiting 0⟩] [] "myapp" 0 rfl rfl

theorem demo_step3 : GStep dS2 dS3 :=
  GStep.settle dS2 0 (.ok ()) "myapp" rfl (by simp [dS2])

theorem demo_step4 : GStep dS3 dS4 :=
  GStep.wake dS3 [] [⟨"myapp", .waiting 0⟩] "myapp" 0 (.ok ()) rfl rfl

theorem demo_step5 : GStep dS4 demoFinal :=
  GStep.wake dS4 [⟨"myapp", .retrying⟩] [] "myapp" 0 (.ok ()) rfl rfl

theorem demo_reachable : Reachable (List.replicate 2 "myapp") demoFinal :=
  Relation.ReflTransGen.tail
    (Relation.ReflTransGen.tail
      (Relation.ReflTransGen.tail
        (Relation.ReflTransGen.tail
          (Relation.ReflTransGen.tail Relation.ReflTransGen.refl demo_step1)
          demo_step2)
        demo_step3)
      demo_step4)
    demo_step5

/-- Witness for C1: two concurrent requests for app `myapp`, completed
through an explicit interleaving. -/
theorem c1_single_flight_witness :
    demoFinal.invocations.length = 1
    ∧ (∀ t1 ∈ demoFinal.tasks, ∀ t2 ∈ demoFinal.tasks, t1.phase = t2.phase)
    ∧ ((∃ t ∈ demoFinal.tasks, t.phase = Phase.retrying) →
        ∀ t ∈ demoFinal.tasks, t.phase = Phase.retrying) :=
  c1_single_flight 2 "myapp" demoFinal (by omega) demo_reachable
    (by
      intro t ht
      simp only [demoFinal, List.mem_cons, List.not_mem_nil, or_false] at ht
      rcases ht with rfl | rfl
      · exact Or.inl rfl
      · exact Or.inl rfl)

/-! ### Claim C5 -/

/-- C5 as stated is false: the code never deletes `preauthPromises` entries.
In the demonstration interleaving the preauthorization promise has settled
and every caller has completed, yet the table still holds the entry for
`myapp`. -/
theorem c5_table_counterexample :
    Reachable (List.replicate 2 "myapp") demoFinal
    ∧ List.lookup (0 : Nat) demoFinal.resolved = some (Except.ok ())
    ∧ (∀ t ∈ demoFinal.tasks, t.phase = Phase.retrying)
    ∧ List.lookup "myapp" demoFinal.table = some 0 :=
  ⟨demo_reachable, rfl,
   by
     intro t ht
     simp only [demoFinal, List.mem_cons, List.not_mem_nil, or_false] at ht
     rcases ht with rfl | rfl <;> rfl,
   rfl⟩

theorem gstep_table_mono {s s2 : GateSys} (h : GStep s s2) :
    ∀ (k : String) (pid : Nat), List.lookup k s.table = some pid →
      List.lookup k s2.table = some pid := by
  cases h with
  | enterHit l1 l2 k2 pid2 htasks hlk =>
      intro k pid hl
      exact hl
  | enterMiss l1 l2 k2 htasks hlk =>
      intro k pid hl
      have hne : k ≠ k2 := lookup_ne_of_lookup_none hl hlk
      simpa only [lookup_cons_of_ne hne] using hl
  | settle pid2 o k2 hnone hmem =>
      intro k pid hl
      exact hl
  | wake l1 l2 k2 pid2 o htasks hres =>
      intro k pid hl
      exact hl

theorem rtg_table_mono {s s2 : GateSys} (h : Relation.ReflTransGen GStep s s2) :
    ∀ (k : String) (pid : Nat), List.lookup k s.table = some pid →
      List.lookup k s2.table = some pid := by
  induction h with
  | refl => exact fun k pid hl => hl
  | tail hab hbc ih => exact fun k pid hl => gstep_table_mono hbc k pid (ih k pid hl)

/-- C5 (amended): the state table holds at most one preauthorization task per
resource key — keys are never duplicated — and an entry, created on the first
step-up need for its resource, is *never removed*: it persists through every
later step, resolved or not (the code contains no delete). -/
theorem c5_table_invariant :
    ∀ (keys : List String) (s : GateSys), Reachable keys s →
      (s.table.map Prod.fst).Nodup
      ∧ ∀ s2, Relation.ReflTransGen GStep s s2 →
          ∀ (k : String) (pid : Nat), List.lookup k s.table = some pid →
            List.lookup k s2.table = some pid :=
  fun _keys s h =>
    ⟨(reachable_ginv h).table_keys_nodup, fun _s2 h2 => rtg_table_mono h2⟩

/-- Witness for C5 (amended) at the demonstration interleaving. -/
theorem c5_table_invariant_witness :
    (demoFinal.table.map Prod.fst).Nodup
    ∧ ∀ s2, Relation.ReflTransGen GStep demoFinal s2 →
        ∀ (k : String) (pid : Nat), List.lookup k demoFinal.table = some pid →
          List.lookup k s2.table = some pid :=
  c5_table_invariant (List.replicate 2 "myapp") demoFinal demo_reachable

/-! ### Session teardown (`Login.logout`) -/

/-- The `err.http` part of an http-call error: status code plus (optional)
parsed body (`err.body` aliases `err.http.body`). -/
structure HttpPart where
  statusCode : Int
  body : Option ErrorBody
  deriving Repr, DecidableEq

/-- An error caught during logout: one with an `http` response attached, or
any other throwable (`if (!err.http) throw err`). -/
inductive JSErr where
  | httpE (h : HttpPart)
  | plain (tag : String)
  deriving Repr, DecidableEq

/-- The 401/`unauthorized` check shared by the authorization-branch catch,
the `defaultToken` catch and the session catch. -/
def benign401 (h : HttpPart) : Bool :=
  h.statusCode == 401 &&
    (match h.body with
     | some b => b.id == some "unauthorized"
     | none => false)

/-- The session-delete catch: a 404 `not_found` on resource `session`, or a
401 `unauthorized`, is absorbed. -/
def benignSession (h : HttpPart) : Bool :=
  (h.statusCode == 404 &&
    (match h.body with
     | some b => b.id == some "not_found" && b.resource == some "session"
     | none => false))
  || benign401 h

/-- One OAuth authorization record: its id and its `access_token` object
(when present) with the token string (when present). -/
structure Authorization where
  id : String
  accessToken : Option (Option String)
  deriving Repr, DecidableEq

/-- Server responses consumed by `logout`: the session delete, the
authorization listing, the default authorization (`access_token` object with
optional token), and the per-id authorization deletes. -/
structure LogoutWorld where
  sessionDelete : Except JSErr Unit
  listAuthorizations : Except JSErr (List Authorization)
  defaultAuthorization : Except JSErr (Option (Option String))
  deleteAuthorization : String → Except JSErr Unit

/-- `Login.defaultToken`: fetch `/oauth/authorizations/~` and return
`authorization.access_token && authorization.access_token.token`; absorb a
404 `not_found` on resource `authorization` and a 401 `unauthorized` as
"no default token". -/
def defaultToken (w : LogoutWorld) : Except JSErr (Option String) :=
  match w.defaultAuthorization with
  | .ok tok => .ok tok.join
  | .error e =>
      match e with
      | .plain t => .error (.plain t)
      | .httpE h =>
          if h.statusCode == 404 &&
              (match h.body with
               | some b => b.id == some "not_found" && b.resource == some "authorization"
               | none => false) then .ok none
          else if benign401 h then .ok none
          else .error (.httpE h)

/-- The session-revocation branch of `logout` with its catch attached. -/
def sessionBranch (w : LogoutWorld) : Except JSErr Unit :=
  match w.sessionDelete with
  | .ok _ => .ok ()
  | .error e =>
      match e with
      | .plain t => .error (.plain t)
      | .httpE h => if benignSession h then .ok () else .error (.httpE h)

/-- The catch attached to the authorization-cleanup branch: a 401
`unauthorized` resolves to an empty result, anything else re-throws. -/
def authCatch (e : JSErr) : Except JSErr Unit :=
  match e with
  | .plain t => .error (.plain t)
  | .httpE h => if benign401 h then .ok () else .error (.httpE h)

/-- The authorization-cleanup branch: list authorizations, fetch the default
token, and unless it equals the token being logged out, delete every
authorization whose `access_token.token` equals the *current* credential
(`this.heroku.auth`).  Returns the branch result, the number of
default-token fetches, and the ids whose deletion was issued. -/
def authBranch (w : LogoutWorld) (token : String) (currentAuth : Option String) :
    Except JSErr Unit × Nat × List String :=
  match w.listAuthorizations with
  | .error e => (authCatch e, 0, [])
  | .ok auths =>
      match defaultToken w with
      | .error e => (authCatch e, 1, [])
      | .ok d =>
          if d = some token then (.ok (), 1, [])
          else
            let ids := (auths.filter (fun a =>
              match a.accessToken with
              | some tok => tok == currentAuth
              | none => false)).map (fun a => a.id)
            match ids.findSome? (fun i =>
              match w.deleteAuthorization i with
              | .error e => some e
              | .ok _ => none) with
            | some e => (authCatch e, 1, ids)
            | none => (.ok (), 1, ids)

/-- Effects of one `logout` call: how many session deletes, authorization
listings and default-token fetches were issued, which authorization deletes
were issued, and the overall result. -/
structure LogoutEffects where
  sessionDeleteCalls : Nat
  authListCalls : Nat
  defaultTokenCalls : Nat
  deletedAuthIds : List String
  result : Except JSErr Unit
  deriving Repr, DecidableEq

/-- `Login.logout`: a falsy token is a no-op; otherwise both revocation
branches are issued and both must settle; a genuine error from either
propagates. -/
def logout (tokenArg : Option String) (currentAuth : Option String)
    (w : LogoutWorld) : LogoutEffects :=
  if truthy tokenArg then
    let token := tokenArg.getD ""
    let r1 := sessionBranch w
    let ab := authBranch w token currentAuth
    let result : Except JSErr Unit :=
      match r1 with
      | .error e => .error e
      | .ok _ =>
          match ab.1 with
          | .error e => .error e
          | .ok _ => .ok ()
    ⟨1, 1, ab.2.1, ab.2.2, result⟩
  else ⟨0, 0, 0, [], .ok ()⟩

/-! ### Claim C6 -/

/-- C6: with a token present, both the session deletion and the
authorization cleanup are issued; when the token being logged out equals the
account's default/dashboard token no authorization record is deleted;
otherwise exactly the records whose access token matches the current
credential are deleted. -/
theorem c6_logout_deletions :
    ∀ (tokenArg : Option String) (cur : Option String) (w : LogoutWorld),
      truthy tokenArg = true →
      (logout tokenArg cur w).sessionDeleteCalls = 1
      ∧ (logout tokenArg cur w).authListCalls = 1
      ∧ (∀ auths, w.listAuthorizations = .ok auths →
          (defaultToken w = .ok (some (tokenArg.getD "")) →
            (logout tokenArg cur w).deletedAuthIds = [])
          ∧ (∀ d, defaultToken w = .ok d → d ≠ some (tokenArg.getD "") →
              ∀ i, i ∈ (logout tokenArg cur w).deletedAuthIds ↔
                ∃ a ∈ auths, a.id = i ∧ a.accessToken = some cur)) := by
  intro tokenArg cur w htok
  refine ⟨by simp [logout, htok], by simp [logout, htok], ?_⟩
  intro auths hlist
  constructor
  · intro hdt
    simp [logout, htok, authBranch, hlist, hdt]
  · intro d hdt hne i
    simp only [logout, htok, if_true, authBranch, hlist, hdt, if_neg hne]
    rcases hfind : (((auths.filter (fun a =>
        match a.accessToken with
        | some tok => tok == cur
        | none => false)).map (fun a => a.id)).findSome? (fun i =>
          match w.deleteAuthorization i with
          | .error e => some e
          | .ok _ => none)) with _ | e
    · simp only [hfind]
      simp [List.mem_map, List.mem_filter]
      constructor
      · rintro ⟨a, ⟨ha, hc⟩, rfl⟩
        refine ⟨a, ha, rfl, ?_⟩
        rcases hat : a.accessToken with _ | tok
        · rw [hat] at hc
          cases hc
        · rw [hat] at hc
          have : tok = cur := by simpa using hc
          rw [this]
      · rintro ⟨a, ha, rfl, hat⟩
        refine ⟨a, ⟨ha, ?_⟩, rfl⟩
        rw [hat]
        simp
    · simp only [hfind]
      simp [List.mem_map, List.mem_filter]
      constructor
      · rintro ⟨a, ⟨ha, hc⟩, rfl⟩
        refine ⟨a, ha, rfl, ?_⟩
        rcases hat : a.accessToken with _ | tok
        · rw [hat] at hc
          cases hc
        · rw [hat] at hc
          have : tok = cur := by simpa using hc
          rw [this]
      · rintro ⟨a, ha, rfl, hat⟩
        refine ⟨a, ⟨ha, ?_⟩, rfl⟩
        rw [hat]
        simp

/-- Authorizations used by the C6 witness. -/
def aMatch : Authorization := ⟨"auth-1", some (some "mypass")⟩

def aOther : Authorization := ⟨"auth-2", some (some "other")⟩

def aNoTok : Authorization := ⟨"auth-3", none⟩

/-- A logout world with three authorizations and a distinct default token. -/
def wList : LogoutWorld :=
  ⟨.ok (), .ok [aMatch, aOther, aNoTok], .ok (some (some "default-token")),
   fun _ => .ok ()⟩

/-- Witness for C6: logging out `mypass` (not the default token) deletes
exactly the records whose access token is the current credential. -/
theorem c6_logout_deletions_witness :
    (logout (some "mypass") (some "mypass") wList).sessionDeleteCalls = 1
    ∧ (logout (some "mypass") (some "mypass") wList).authListCalls = 1
    ∧ (∀ i, i ∈ (logout (some "mypass") (some "mypass") wList).deletedAuthIds ↔
        ∃ a ∈ [aMatch, aOther, aNoTok], a.id = i ∧ a.accessToken = some (some "mypass"))
    ∧ (logout (some "default-token") (some "mypass") wList).deletedAuthIds = [] := by
  have h1 := c6_logout_deletions (some "mypass") (some "mypass") wList (by decide)
  have h2 := c6_logout_deletions (some "default-token") (some "mypass") wList (by decide)
  refine ⟨h1.1, h1.2.1, ?_, ?_⟩
  · exact (h1.2.2 [aMatch, aOther, aNoTok] rfl).2 (some "default-token") rfl (by decide)
  · exact (h2.2.2 [aMatch, aOther, aNoTok] rfl).1 rfl

/-! ### Claim C7 -/

/-- C7: logout with no (or falsy) token is a no-op issuing zero network
calls; benign revocation outcomes (already-gone session, unauthorized token)
are absorbed as success; any other error from either revocation branch
propagates. -/
theorem c7_logout_benign :
    (∀ (tokenArg : Option String) (cur : Option String) (w : LogoutWorld),
        truthy tokenArg = false →
        logout tokenArg cur w = ⟨0, 0, 0, [], .ok ()⟩)
    ∧ (∀ (tokenArg : Option String) (cur : Option String) (w : LogoutWorld)
        (h1 h2 : HttpPart),
        truthy tokenArg = true →
        w.sessionDelete = .error (.httpE h1) → benignSession h1 = true →
        w.listAuthorizations = .error (.httpE h2) → benign401 h2 = true →
        (logout tokenArg cur w).result = .ok ())
    ∧ (∀ (tokenArg : Option String) (cur : Option String) (w : LogoutWorld) (e : JSErr),
        truthy tokenArg = true →
        w.sessionDelete = .error e →
        (∀ h, e = JSErr.httpE h → benignSession h = false) →
        (logout tokenArg cur w).result = .error e)
    ∧ (∀ (tokenArg : Option String) (cur : Option String) (w : LogoutWorld) (e : JSErr),
        truthy tokenArg = true →
        w.sessionDelete = .ok () →
        w.listAuthorizations = .error e →
        (∀ h, e = JSErr.httpE h → benign401 h = false) →
        (logout tokenArg cur w).result = .error e) := by
  refine ⟨?_, ?_, ?_, ?_⟩
  · intro tokenArg cur w htok
    simp [logout, htok]
  · intro tokenArg cur w h1 h2 htok hs hbs hl hb4
    simp [logout, htok, sessionBranch, hs, hbs, authBranch, hl, authCatch, hb4]
  · intro tokenArg cur w e htok hs hnb
    cases e with
    | plain t => simp [logout, htok, sessionBranch, hs]
    | httpE h => simp [logout, htok, sessionBranch, hs, hnb h rfl]
  · intro tokenArg cur w e htok hs hl hnb
    cases e with
    | plain t => simp [logout, htok, sessionBranch, hs, authBranch, hl, authCatch]
    | httpE h => simp [logout, htok, sessionBranch, hs, authBranch, hl, authCatch, hnb h rfl]

/-- A benign-failure logout world: session already gone, token already
unauthorized. -/
def wBenign : LogoutWorld :=
  ⟨.error (.httpE ⟨404, some { id := some "not_found", resource := some "session" }⟩),
   .error (.httpE ⟨401, some { id := some "unauthorized" }⟩),
   .ok none, fun _ => .ok ()⟩

/-- A logout world whose session delete fails with a non-HTTP error. -/
def wBad : LogoutWorld :=
  ⟨.error (.plain "network down"), .ok [], .ok none, fun _ => .ok ()⟩

/-- Witness for C7 at concrete inputs. -/
theorem c7_logout_benign_witness :
    logout none (some "mypass") wList = ⟨0, 0, 0, [], .ok ()⟩
    ∧ (logout (some "tok") (some "tok") wBenign).result = .ok ()
    ∧ (logout (some "tok") (some "tok") wBad).result = .error (.plain "network down") :=
  ⟨c7_logout_benign.1 none (some "mypass") wList rfl,
   c7_logout_benign.2.1 (some "tok") (some "tok") wBenign
     ⟨404, some { id := some "not_found", resource := some "session" }⟩
     ⟨401, some { id := some "unauthorized" }⟩
     (by decide) rfl (by decide) rfl (by decide),
   c7_logout_benign.2.2.1 (some "tok") (some "tok") wBad (.plain "network down")
     (by decide) rfl (fun h hh => JSErr.noConfusion hh)⟩

/-! ### Token persistence (`Login.saveToken`) and interactive login -/

/-- A login/secret pair produced by a login strategy. -/
structure NetrcEntry where
  login : String
  password : String
  deriving Repr, DecidableEq

/-- A formatting token of the netrc parser (`Netrc.machines._tokens`). -/
structure NetrcToken where
  host : String
  internalWhitespace : String
  deriving Repr, DecidableEq

/-- The netrc file state `saveToken` mutates: machines plus the parser's
formatting tokens when present. -/
structure NetrcState where
  machines : List (String × NetrcMachine)
  tokens : Option (List NetrcToken)
  deriving Repr, DecidableEq

/-- One iteration of `saveToken`'s per-host loop: create the machine if
missing, then set login and password and delete the legacy method and org
fields. -/
def setEntry (ms : List (String × NetrcMachine)) (host : String) (e : NetrcEntry) :
    List (String × NetrcMachine) :=
  if (List.lookup host ms).isNone then
    ms ++ [(host, { login := some e.login, password := some e.password,
                    method := none, org := none })]
  else
    ms.map (fun p =>
      if p.1 = host then
        (p.1, { p.2 with login := some e.login, password := some e.password,
                         method := none, org := none })
      else p)

/-- `Login.saveToken`: write the entry under the API host and the git host,
and mark both hosts' formatting tokens with two-space indentation. -/
def saveToken (apiHost httpGitHost : String) (n : NetrcState) (e : NetrcEntry) :
    NetrcState :=
  let hosts := [apiHost, httpGitHost]
  let machines := hosts.foldl (fun ms host => setEntry ms host e) n.machines
  let tokens :=
    match n.tokens with
    | some ts => some (ts.map (fun t =>
        if t.host ∈ hosts then { t with internalWhitespace := "\n  " } else t))
    | none => none
  ⟨machines, tokens⟩

theorem lookup_append_entry_self (ms : List (String × NetrcMachine)) (host : String)
    (m : NetrcMachine) (hn : List.lookup host ms = none) :
    List.lookup host (ms ++ [(host, m)]) = some m := by
  induction ms with
  | nil => exact lookup_cons_self
  | cons p rest ih =>
      by_cases hk : host = p.1
      · rw [show p = (p.1, p.2) from rfl, ← hk, lookup_cons_self] at hn
        cases hn
      · rw [show p = (p.1, p.2) from rfl] at hn ⊢
        rw [lookup_cons_of_ne hk] at hn
        rw [List.cons_append, lookup_cons_of_ne hk]
        exact ih hn

theorem lookup_append_entry_of_ne (ms : List (String × NetrcMachine)) (host h2 : String)
    (m : NetrcMachine) (hne : h2 ≠ host) :
    List.lookup h2 (ms ++ [(host, m)]) = List.lookup h2 ms := by
  induction ms with
  | nil =>
      simp only [List.nil_append]
      rw [lookup_cons_of_ne hne]
  | cons p rest ih =>
      rw [show p = (p.1, p.2) from rfl, List.cons_append]
      by_cases hk : h2 = p.1
      · rw [hk, lookup_cons_self, lookup_cons_self]
      · rw [lookup_cons_of_ne hk, lookup_cons_of_ne hk, ih]

theorem lookup_map_setfield_self (ms : List (String × NetrcMachine)) (host : String)
    (e : NetrcEntry) (hs : (List.lookup host ms).isNone = false) :
    List.lookup host (ms.map (fun p =>
        if p.1 = host then
          (p.1, { p.2 with login := some e.login, password := some e.password,
                           method := none, org := none })
        else p))
      = some { login := some e.login, password := some e.password,
               method := none, org := none } := by
  induction ms with
  | nil => simp at hs
  | cons p rest ih =>
      simp only [List.map_cons]
      by_cases hp : p.1 = host
      · rw [if_pos hp, hp]
        exact lookup_cons_self
      · rw [if_neg hp]
        have hk : host ≠ p.1 := fun h => hp h.symm
        rw [lookup_cons_of_ne hk]
        rw [show p = (p.1, p.2) from rfl, lookup_cons_of_ne hk] at hs
        exact ih hs

theorem lookup_map_setfield_of_ne (ms : List (String × NetrcMachine)) (host h2 : String)
    (e : NetrcEntry) (hne : h2 ≠ host) :
    List.lookup h2 (ms.map (fun p =>
        if p.1 = host then
          (p.1, { p.2 with login := some e.login, password := some e.password,
                           method := none, org := none })
        else p))
      = List.lookup h2 ms := by
  induction ms with
  | nil => rfl
  | cons p rest ih =>
      simp only [List.map_cons]
      by_cases hp : p.1 = host
      · rw [if_pos hp]
        have h2p : h2 ≠ p.1 := by
          rw [hp]
          exact hne
        rw [lookup_cons_of_ne h2p]
        rw [show p = (p.1, p.2) from rfl, lookup_cons_of_ne h2p]
        exact ih
      · rw [if_neg hp]
        by_cases hk : h2 = p.1
        · rw [show p = (p.1, p.2) from rfl, hk, lookup_cons_self, lookup_cons_self]
        · rw [show p = (p.1, p.2) from rfl, lookup_cons_of_ne hk, lookup_cons_of_ne hk]
          exact ih

theorem lookup_setEntry_self (ms : List (String × NetrcMachine)) (host : String)
    (e : NetrcEntry) :
    List.lookup host (setEntry ms host e)
      = some { login := some e.login, password := some e.password,
               method := none, org := none } := by
  unfold setEntry
  by_cases hn : (List.lookup host ms).isNone
  · rw [if_pos hn]
    exact lookup_append_entry_self ms host _ (Option.isNone_iff_eq_none.mp hn)
  · rw [if_neg hn]
    refine lookup_map_setfield_self ms host e ?_
    revert hn
    cases (List.lookup host ms).isNone <;> simp

theorem lookup_setEntry_other (ms : List (String × NetrcMachine)) (host h2 : String)
    (e : NetrcEntry) (hne : h2 ≠ host) :
    List.lookup h2 (setEntry ms host e) = List.lookup h2 ms := by
  unfold setEntry
  by_cases hn : (List.lookup host ms).isNone
  · rw [if_pos hn]
    exact lookup_append_entry_of_ne ms host h2 _ hne
  · rw [if_neg hn]
    exact lookup_map_setfield_of_ne ms host h2 e hne

/-- The body of an error, as read by `interactive`'s two-factor check
(`err.body`). -/
def errBody : JSErr → Option ErrorBody
  | .httpE h => h.body
  | .plain _ => none

/-- Results of the two possible `createOAuthToken` calls the interactive
strategy can make. -/
structure InteractiveWorld where
  firstCreate : Except JSErr NetrcEntry
  secondCreate : Except JSErr NetrcEntry

/-- `Login.interactive`: try to create the token; on a `two_factor` error
prompt for a code and retry once; on success set the in-memory credential
override (`this.heroku.auth = auth.password`) and return the entry.  The
second component is the override that was written. -/
def interactive (w : InteractiveWorld) : Except JSErr (NetrcEntry × Option String) :=
  match w.firstCreate with
  | .ok auth => .ok (auth, some auth.password)
  | .error e =>
      match errBody e with
      | some b =>
          if b.id == some "two_factor" then
            match w.secondCreate with
            | .ok auth => .ok (auth, some auth.password)
            | .error e2 => .error e2
          else .error e
      | none => .error e

/-! ### Claim C8 -/

/-- C8: a successful interactive login yields an entry persisted under both
the API host and the git host — overwriting whatever was there and stripping
the legacy method/org fields — and the in-memory credential override is set
to the new secret. -/
theorem c8_save_token :
    ∀ (w : InteractiveWorld) (entry : NetrcEntry) (ov : Option String),
      interactive w = .ok (entry, ov) →
      ov = some entry.password
      ∧ ∀ (apiHost httpGitHost : String) (n : NetrcState),
          List.lookup apiHost (saveToken apiHost httpGitHost n entry).machines
            = some { login := some entry.login, password := some entry.password,
                     method := none, org := none }
          ∧ List.lookup httpGitHost (saveToken apiHost httpGitHost n entry).machines
            = some { login := some entry.login, password := some entry.password,
                     method := none, org := none } := by
  intro w entry ov hw
  have hov : ov = some entry.password := by
    unfold interactive at hw
    rcases h1 : w.firstCreate with e | auth
    · simp only [h1] at hw
      rcases hb : errBody e with _ | b
      · simp only [hb] at hw
        cases hw
      · simp only [hb] at hw
        by_cases htf : (b.id == some "two_factor") = true
        · rw [if_pos htf] at hw
          rcases h2 : w.secondCreate with e2 | auth2
          · simp only [h2] at hw
            cases hw
          · simp only [h2] at hw
            injection hw with h5
            injection h5 with h3 h4
            subst h3
            subst h4
            rfl
        · rw [if_neg htf] at hw
          cases hw
    · simp only [h1] at hw
      injection hw with h5
      injection h5 with h3 h4
      subst h3
      subst h4
      rfl
  refine ⟨hov, ?_⟩
  intro apiHost httpGitHost n
  have hmach : (saveToken apiHost httpGitHost n entry).machines
      = setEntry (setEntry n.machines apiHost entry) httpGitHost entry := rfl
  rw [hmach]
  constructor
  · by_cases hhost : apiHost = httpGitHost
    · rw [hhost]
      exact lookup_setEntry_self _ _ _
    · rw [lookup_setEntry_other _ _ _ _ hhost]
      exact lookup_setEntry_self _ _ _
  · exact lookup_setEntry_self _ _ _

/-- An interactive world whose first token creation succeeds. -/
def wInteractive : InteractiveWorld :=
  ⟨.ok ⟨"me@example.com", "newpass"⟩, .error (.plain "unused")⟩

/-- A pre-existing netrc state with stale data under both hosts. -/
def nStale : NetrcState :=
  ⟨[("api.heroku.com", ⟨some "old@x", some "oldpass", some "sso", some "acme"⟩)],
   some [⟨"api.heroku.com", " "⟩]⟩

/-- Witness for C8 at concrete inputs. -/
theorem c8_save_token_witness :
    List.lookup "api.heroku.com"
        (saveToken "api.heroku.com" "git.heroku.com" nStale ⟨"me@example.com", "newpass"⟩).machines
      = some { login := some "me@example.com", password := some "newpass",
               method := none, org := none }
    ∧ List.lookup "git.heroku.com"
        (saveToken "api.heroku.com" "git.heroku.com" nStale ⟨"me@example.com", "newpass"⟩).machines
      = some { login := some "me@example.com", password := some "newpass",
               method := none, org := none } :=
  (c8_save_token wInteractive ⟨"me@example.com", "newpass"⟩ (some "newpass") rfl).2
    "api.heroku.com" "git.heroku.com" nStale

/-! ### Claim C9 -/

/-- An arbitrary error raised inside a login strategy: an optional structured
body plus an identity tag. -/
structure RaisedError where
  body : Option ErrorBody
  tag : String
  deriving Repr, DecidableEq

/-- What escapes `login`'s top-level `catch`. -/
inductive LoginFailure where
  | wrapped (w : WrappedError)
  | rethrown (e : RaisedError)
  | typeError
  deriving Repr, DecidableEq

/-- `login`'s top-level catch: `throw new HerokuAPIError(err)`, with the
constructor's actual behavior on each body shape. -/
def loginCatch (e : RaisedError) : LoginFailure :=
  match mkHerokuAPIError e.body with
  | .ok w => .wrapped w
  | .error .original => .rethrown e
  | .error .typeError => .typeError

/-- C9 as stated is false: an error without a structured body (a timeout, a
prompt cancellation, any non-transport error) makes the `HerokuAPIError`
constructor read `.message` of `undefined`, so a TypeError — not a wrapped
API error — propagates; and an error whose body lacks a message is re-raised
unchanged. -/
theorem c9_wrap_counterexample :
    loginCatch ⟨none, "timeout"⟩ = LoginFailure.typeError
    ∧ (∀ w, loginCatch ⟨none, "timeout"⟩ ≠ LoginFailure.wrapped w)
    ∧ loginCatch ⟨some { id := some "oops" }, "http500"⟩
        = LoginFailure.rethrown ⟨some { id := some "oops" }, "http500"⟩
    ∧ (∀ w, loginCatch ⟨some { id := some "oops" }, "http500"⟩
        ≠ LoginFailure.wrapped w) := by
  refine ⟨rfl, ?_, rfl, ?_⟩
  · intro w h
    exact LoginFailure.noConfusion h
  · intro w h
    exact LoginFailure.noConfusion h

/-- C9 (amended): an error whose body carries a truthy message propagates as
the wrapped API error; an error whose body lacks a message is re-raised
unchanged; an error with no body at all escapes as a TypeError. -/
theorem c9_login_error_wrapping :
    ∀ (e : RaisedError),
      (∀ b, e.body = some b → truthy b.message = true →
        loginCatch e = .wrapped ⟨herokuErrorMessage b, b⟩)
      ∧ (∀ b, e.body = some b → truthy b.message = false →
        loginCatch e = .rethrown e)
      ∧ (e.body = none → loginCatch e = .typeError) := by
  intro e
  refine ⟨?_, ?_, ?_⟩
  · intro b hb hm
    simp [loginCatch, hb, mkHerokuAPIError, hm]
  · intro b hb hm
    simp [loginCatch, hb, mkHerokuAPIError, hm]
  · intro hb
    simp [loginCatch, hb, mkHerokuAPIError]

/-- Witness for C9 (amended) at concrete errors. -/
theorem c9_login_error_wrapping_witness :
    loginCatch ⟨some { message := some "bad credentials" }, "http401"⟩
      = .wrapped ⟨herokuErrorMessage { message := some "bad credentials" },
                  { message := some "bad credentials" }⟩
    ∧ loginCatch ⟨some { id := some "oops2" }, "http502"⟩
      = .rethrown ⟨some { id := some "oops2" }, "http502"⟩
    ∧ loginCatch ⟨none, "cancelled"⟩ = .typeError :=
  ⟨(c9_login_error_wrapping ⟨some { message := some "bad credentials" }, "http401"⟩).1
     { message := some "bad credentials" } rfl (by decide),
   (c9_login_error_wrapping ⟨some { id := some "oops2" }, "http502"⟩).2.1
     { id := some "oops2" } rfl (by decide),
   (c9_login_error_wrapping ⟨none, "cancelled"⟩).2.2 rfl⟩

/-! ### Client construction (`APIClient.constructor`) -/

/-- The options record handed to the `APIClient` constructor. -/
structure ClientOptions where
  required : Option Bool := none
  preauth : Option Bool := none
  deriving Repr, DecidableEq

/-- The configuration the constructor builds: normalized options, the API
host, and the default request headers. -/
structure ClientConfig where
  required : Bool
  preauth : Bool
  host : String
  headers : List (String × String)
  deriving Repr, DecidableEq

/-- JS object spread `{...base, ...extra}`: keys of `extra` override keys of
`base` (observable through lookup). -/
def mergeHeaders (base extra : List (String × String)) : List (String × String) :=
  base.filter (fun p => (List.lookup p.1 extra).isNone) ++ extra

/-- The `APIClient` constructor as a function of a JSON-parse oracle (the
platform builtin `JSON.parse`) and the process environment.  In source
order: option defaulting, URL parsing, `JSON.parse(process.env.HEROKU_HEADERS
|| '\x7b\x7d')` — which throws before anything else runs on invalid JSON —
then `this.auth` resolution and header assembly.  The second component
counts the netrc loads performed (zero when the parse throws: nothing after
that line runs, and no client exists to issue a request). -/
def constructAPIClient
    (parse : String → Except String (List (String × String)))
    (env : Env) (netrc : Netrc) (apiHost : String) (apiUrlHost : String)
    (version platform : String) (options : ClientOptions) :
    Except String ClientConfig × Nat :=
  let required := options.required.getD true
  let preauth := options.preauth ≠ some false
  match parse (match env.herokuHeaders with
    | some ss => if ss ≠ "" then ss else "\x7b\x7d"
    | none => "\x7b\x7d") with
  | .error msg => (.error msg, 0)
  | .ok envHeaders =>
      let authRes := auth none env netrc apiHost
      let baseHeaders : List (String × String) :=
        [("accept", "application/vnd.heroku+json; version=3"),
         ("user-agent", "heroku-cli/" ++ version ++ " " ++ platform)]
      let hs := mergeHeaders baseHeaders envHeaders
      let hs2 :=
        if truthy authRes.value && (List.lookup "authorization" hs).isNone then
          hs ++ [("authorization", "Bearer " ++ authRes.value.getD "")]
        else hs
      (.ok ⟨required, preauth, apiUrlHost, hs2⟩, authRes.netrcLoads)

/-! ### Claim C10 -/

/-- C10: with `HEROKU_HEADERS` set to a string the JSON parser rejects,
construction throws the parse error before anything else runs (no store
read, no client, hence no request); with the variable unset, construction
succeeds and behaves exactly as if the empty JSON object had been supplied,
yielding the default accept/user-agent headers plus the bearer header when a
credential resolves. -/
theorem c10_construct_headers :
    ∀ (parse : String → Except String (List (String × String))) (env : Env)
      (netrc : Netrc) (apiHost apiUrlHost version platform : String)
      (options : ClientOptions),
      (∀ ss msg, env.herokuHeaders = some ss → ss ≠ "" → parse ss = .error msg →
        constructAPIClient parse env netrc apiHost apiUrlHost version platform options
          = (.error msg, 0))
      ∧ (env.herokuHeaders = none →
          constructAPIClient parse env netrc apiHost apiUrlHost version platform options
            = constructAPIClient parse { env with herokuHeaders := some "\x7b\x7d" }
                netrc apiHost apiUrlHost version platform options)
      ∧ (env.herokuHeaders = none → parse "\x7b\x7d" = .ok [] →
          constructAPIClient parse env netrc apiHost apiUrlHost version platform options
            = (.ok ⟨options.required.getD true, options.preauth ≠ some false, apiUrlHost,
                if truthy (auth none env netrc apiHost).value then
                  [("accept", "application/vnd.heroku+json; version=3"),
                   ("user-agent", "heroku-cli/" ++ version ++ " " ++ platform),
                   ("authorization",
                    "Bearer " ++ (auth none env netrc apiHost).value.getD "")]
                else
                  [("accept", "application/vnd.heroku+json; version=3"),
                   ("user-agent", "heroku-cli/" ++ version ++ " " ++ platform)]⟩,
               (auth none env netrc apiHost).netrcLoads)) := by
  intro parse env netrc apiHost apiUrlHost version platform options
  refine ⟨?_, ?_, ?_⟩
  · intro ss msg henv hne hparse
    simp only [constructAPIClient, henv, if_pos hne, hparse]
  · intro henv
    simp only [constructAPIClient, henv]
    rfl
  · intro henv hparse
    simp only [constructAPIClient, henv, hparse, mergeHeaders]
    simp only [List.lookup]
    simp only [List.filter_cons, List.filter_nil, Option.isNone_none, List.append_nil]
    by_cases hv : truthy (auth none env netrc apiHost).value = true
    · simp [hv]
    · simp only [Bool.not_eq_true] at hv
      simp [hv]

/-- A concrete JSON-parse oracle for the witness: accepts only the empty
object. -/
def demoParse : String → Except String (List (String × String)) :=
  fun ss => if ss = "\x7b\x7d" then .ok [] else .error "Unexpected token"

/-- Witness for C10: invalid JSON throws the parse error with nothing else
run; unset behaves as the empty object. -/
theorem c10_construct_headers_witness :
    constructAPIClient demoParse { herokuHeaders := some "not json" } ⟨[]⟩
        "api.heroku.com" "api.heroku.com" "7.0" "linux" {}
      = (.error "Unexpected token", 0)
    ∧ constructAPIClient demoParse { herokuApiKey := some "k" } ⟨[]⟩
        "api.heroku.com" "api.heroku.com" "7.0" "linux" {}
      = constructAPIClient demoParse
          { herokuApiKey := some "k", herokuHeaders := some "\x7b\x7d" } ⟨[]⟩
          "api.heroku.com" "api.heroku.com" "7.0" "linux" {} :=
  ⟨(c10_construct_headers demoParse { herokuHeaders := some "not json" } ⟨[]⟩
      "api.heroku.com" "api.heroku.com" "7.0" "linux" {}).1
      "not json" "Unexpected token" rfl (by decide) (by decide),
   (c10_construct_headers demoParse { herokuApiKey := some "k" } ⟨[]⟩
      "api.heroku.com" "api.heroku.com" "7.0" "linux" {}).2.1 rfl⟩

end Heroku
